import Mathlib

/-!
Verification development for the InjectLib repository (`main.py` and
`src/ui/menu_manager.py`): a macOS application-patching console tool.
The Python functions are shallowly embedded as Lean definitions; dict
values of heterogeneous type (a package name that is a JSON string or a
list of strings, keys that may be absent / `None`) are modelled with
sum and option types, and Python truthiness is made explicit.
-/

namespace InjectLib

/-- A catalog entry's `packageName`: in the JSON config it is either a
single string or a list of strings. -/
inductive PkgName where
  | str (s : String)
  | list (l : List String)
deriving DecidableEq, Repr

/-- The `tccutil` config value: a string or a list of strings. -/
inductive TccVal where
  | str (s : String)
  | list (l : List String)
deriving DecidableEq, Repr

/-- The `helperFile` config value: a string or a list of strings. -/
inductive HelperVal where
  | str (s : String)
  | list (l : List String)
deriving DecidableEq, Repr

/-- One entry of `config["AppList"]` (a `CatalogEntry`), with every key
that `main.py` reads.  Keys tested with `is not None` or used as data are
`Option`s (`none` = key absent or JSON null); keys tested only for Python
truthiness are `Bool`. -/
structure CatalogEntry where
  packageName : Option PkgName := none
  appBaseLocate : Option String := none
  bridgeFile : Option String := none
  injectFile : Option String := none
  supportVersion : Option (List String) := none
  supportSubVersion : Option (List String) := none
  extraShell : Option String := none
  needCopyToAppDir : Bool := false
  deepSignApp : Bool := false
  disableLibraryValidate : Bool := false
  entitlements : Option String := none
  noSignTarget : Bool := false
  noDeep : Bool := false
  tccutil : Option TccVal := none
  autoHandleSetapp : Bool := false
  autoHandleHelper : Bool := false
  helperFile : Option HelperVal := none
  componentApp : Option (List String) := none
  onlysh : Bool := false
  SMExtra : Option String := none
  keygen : Bool := false
  forQiuChenly : Bool := false
deriving DecidableEq, Repr

/-- An `InstalledApp` record as produced by `parse_app_info` in `main.py`:
`CFBundleIdentifier` is read with `.get` and no default, so it can be
`None`; the other manifest fields default to the empty string. -/
structure InstalledApp where
  appBaseLocate : String := ""
  CFBundleIdentifier : Option String := none
  CFBundleVersion : String := ""
  CFBundleShortVersionString : String := ""
  CFBundleName : String := ""
  CFBundleExecutable : String := ""
deriving DecidableEq, Repr

/-- Python's `keyword.lower() in s.lower()`: case-insensitive substring
test (the empty keyword is a substring of everything). -/
def lowerContains (keyword s : String) : Bool :=
  decide (keyword.toLower.toList <:+: s.toLower.toList)

/-- Python's `installed_app.get("CFBundleIdentifier") == package_name`
(`main.py` line 28): `None == None` is `True`, a string equals a string
by value, and a string never equals a list. -/
def idEqPkg : Option String → Option PkgName → Bool
  | some i, some (PkgName.str s) => i == s
  | none, none => true
  | _, _ => false

/-- The inner loop of `search_apps` (`main.py` lines 27--31): does some
installed app whose `CFBundleIdentifier` equals the entry's
`packageName` have the keyword in its `CFBundleName`? -/
def displayNameMatch (install_apps : List InstalledApp) (keyword : String)
    (package_name : Option PkgName) : Bool :=
  install_apps.any fun ia =>
    idEqPkg ia.CFBundleIdentifier package_name &&
      lowerContains keyword ia.CFBundleName

/-- `search_apps` (`main.py` lines 12--33): walk the catalog; an entry is
appended when the keyword occurs in one of its package names
(list case / string case), otherwise when `displayNameMatch` holds. -/
def search_apps (app_list : List CatalogEntry) (install_apps : List InstalledApp)
    (keyword : String) : List CatalogEntry :=
  match app_list with
  | [] => []
  | app :: rest =>
    let tail := search_apps rest install_apps keyword
    match app.packageName with
    | some (PkgName.list names) =>
      if names.any (fun name => lowerContains keyword name) then app :: tail
      else if displayNameMatch install_apps keyword app.packageName then app :: tail
      else tail
    | some (PkgName.str s) =>
      if lowerContains keyword s then app :: tail
      else if displayNameMatch install_apps keyword app.packageName then app :: tail
      else tail
    | none =>
      if displayNameMatch install_apps keyword app.packageName then app :: tail
      else tail

/-- The entry's package names as a list, for the spec-side matcher. -/
def packageNamesOf : Option PkgName → List String
  | some (PkgName.str s) => [s]
  | some (PkgName.list l) => l
  | none => []

/-- Matcher predicate written from the spec's words: the keyword is a
case-insensitive substring of one of the entry's package names, or of
the display name of an installed app whose bundle identifier equals the
entry's package name. -/
def matcher_spec (install_apps : List InstalledApp) (keyword : String)
    (app : CatalogEntry) : Bool :=
  (packageNamesOf app.packageName).any (fun n => lowerContains keyword n) ||
    install_apps.any fun ia =>
      idEqPkg ia.CFBundleIdentifier app.packageName &&
        lowerContains keyword ia.CFBundleName

/-- `check_compatible` (`main.py` lines 71--90).  Python truthiness of a
list (`if compatible_version_code:`) is equivalent to the list being
nonempty, and an empty list has no matching element, so the loops are
folded into `List.any` over the present list. -/
def check_compatible (compatible_version_code compatible_version_subcode : Option (List String))
    (app_version_code app_subversion_code : String) : Bool :=
  if compatible_version_code.isNone && compatible_version_subcode.isNone then true
  else
    let hit_version :=
      match compatible_version_code with
      | some codes => codes.any (fun code => app_version_code == code)
      | none => false
    if hit_version then true
    else
      match compatible_version_subcode with
      | some codes => codes.any (fun code => app_subversion_code == code)
      | none => false

/-- The manifest keys that `parse_app_info` reads from a parsed
`Contents/Info.plist` dictionary (each may be absent). -/
structure Plist where
  CFBundleIdentifier : Option String := none
  CFBundleVersion : Option String := none
  CFBundleShortVersionString : Option String := none
  CFBundleExecutable : Option String := none
deriving DecidableEq, Repr

/-- The filesystem as the scanner observes it: path existence, directory
listing, and manifest parsing.  `loadPlist` returns `none` when opening
or `plistlib.load` would raise (unreadable or malformed manifest). -/
structure FS where
  pathExists : String → Bool
  listdir : String → List String
  loadPlist : String → Option Plist

/-- `parse_app_info` (`main.py` lines 36--47) applied to an
already-parsed manifest: note that both `CFBundleName` and
`CFBundleExecutable` of the record are populated from the manifest's
`CFBundleExecutable` key. -/
def parse_app_info (app_base_locate : String) (app_info : Plist) : InstalledApp :=
  { appBaseLocate := app_base_locate
    CFBundleIdentifier := app_info.CFBundleIdentifier
    CFBundleVersion := app_info.CFBundleVersion.getD ""
    CFBundleShortVersionString := app_info.CFBundleShortVersionString.getD ""
    CFBundleName := app_info.CFBundleExecutable.getD ""
    CFBundleExecutable := app_info.CFBundleExecutable.getD "" }

/-- The manifest path `os.path.join(base_dir, app, "Contents",
"Info.plist")` built by the scanner. -/
def infoPlistPath (base_dir app : String) : String :=
  base_dir ++ "/" ++ app ++ "/Contents/Info.plist"

/-- The inner loop of `scan_apps` over one root's directory entries
(`main.py` lines 58--66): a subdirectory is skipped when its manifest
does not exist (`continue`) or fails to parse (`except: continue`). -/
def scanEntries (fs : FS) (base_dir : String) : List String → List InstalledApp
  | [] => []
  | app :: rest =>
    let app_info_file := infoPlistPath base_dir app
    if fs.pathExists app_info_file then
      match fs.loadPlist app_info_file with
      | some info =>
          parse_app_info (base_dir ++ "/" ++ app) info :: scanEntries fs base_dir rest
      | none => scanEntries fs base_dir rest
    else scanEntries fs base_dir rest

/-- The fixed scan roots of `scan_apps` (`main.py` line 52). -/
def base_dirs : List String := ["/Applications", "/Applications/Setapp"]

/-- The outer loop of `scan_apps` over the roots (`main.py` lines
54--57): a root that does not exist is skipped. -/
def scanRoots (fs : FS) : List String → List InstalledApp
  | [] => []
  | base_dir :: rest =>
    if fs.pathExists base_dir then
      scanEntries fs base_dir (fs.listdir base_dir) ++ scanRoots fs rest
    else scanRoots fs rest

/-- `scan_apps` (`main.py` lines 50--68). -/
def scan_apps (fs : FS) : List InstalledApp :=
  scanRoots fs base_dirs

/-- Spec-side characterisation of the scan: for every existing root, one
record per listed subdirectory whose manifest exists and parses, and
nothing else. -/
def scan_spec (fs : FS) : List InstalledApp :=
  (base_dirs.filter fs.pathExists).flatMap fun base_dir =>
    (fs.listdir base_dir).filterMap fun app =>
      if fs.pathExists (infoPlistPath base_dir app) then
        (fs.loadPlist (infoPlistPath base_dir app)).map
          (parse_app_info (base_dir ++ "/" ++ app))
      else none

/-- A one-app filesystem used to witness the scan theorems. -/
def fs1 : FS :=
  { pathExists := fun p =>
      p == "/Applications" || p == "/Applications/App1.app/Contents/Info.plist"
    listdir := fun p => if p == "/Applications" then ["App1.app"] else []
    loadPlist := fun p =>
      if p == "/Applications/App1.app/Contents/Info.plist" then
        some { CFBundleIdentifier := some "com.example.app1"
               CFBundleVersion := some "100"
               CFBundleShortVersionString := some "1.0"
               CFBundleExecutable := some "App1" }
      else none }

/-- Python's `s.isdigit()` (ASCII): nonempty and all characters are
digits. -/
def pyIsDigit (s : String) : Bool :=
  !s.data.isEmpty && s.data.all (fun c => c.isDigit)

/-- Python's `int(s)` on a digit string: base-10 value of the digits. -/
def pyToNat (s : String) : Nat :=
  s.data.foldl (fun n c => n * 10 + (c.toNat - 48)) 0

/-- `s.isdigit()` followed by `int(s)`: `some` of the numeric value on a
digit string, `none` otherwise. -/
def pyToNatOpt (s : String) : Option Nat :=
  if pyIsDigit s then some (pyToNat s) else none

/-- Outcome of the app-number prompt in `main.py` keyword mode (lines
212--218): the program either exits (`print` then `return`) or proceeds
with the selected entry.  There is no loop: the source never re-prompts
here. -/
inductive SelResult where
  | exit
  | selected (app : CatalogEntry)
deriving DecidableEq, Repr

/-- `main.py` lines 213--218: `choice.isdigit()` (modelled by
`String.toNat?` succeeding) and range checks; any invalid input — not a
digit string, `0`, or larger than the match count — prints an exit
message and returns. -/
def select_app_choice (matched_apps : List CatalogEntry) (choice : String) : SelResult :=
  match pyToNatOpt choice with
  | none => SelResult.exit
  | some n =>
    if n == 0 || n > matched_apps.length then SelResult.exit
    else SelResult.selected (matched_apps.getD (n - 1) {})

/-- Outcome of one iteration of `MenuManager.show_main_menu`
(`menu_manager.py` lines 158--240): either the method returns a value,
or the `while True` loop continues (re-prompts) with an updated
`current_page`. -/
inductive MenuOutcome where
  | ret (value : String)
  | again (page : Nat)
deriving DecidableEq, Repr

/-- One iteration of the `while True` body of
`MenuManager.show_main_menu` (`menu_manager.py` lines 158--240), from
the `read_input` on.  `display_supported_apps` and
`get_installed_supported_apps` live in `src/app`, which is not part of
the supplied sources, so the displayed page contents (`displayAt`) and
the installed-supported list (`installed_supported`) are parameters. -/
def show_main_menu_step (current_page total_pages page_size : Nat)
    (installed_supported : List CatalogEntry)
    (displayAt : Nat → List CatalogEntry)
    (last_displayed : List CatalogEntry) (choice : String) : MenuOutcome :=
  if choice == "n" then
    if current_page < total_pages - 1 then MenuOutcome.again (current_page + 1)
    else MenuOutcome.again current_page
  else if choice == "p" then
    if current_page > 0 then MenuOutcome.again (current_page - 1)
    else MenuOutcome.again current_page
  else if choice == "s" then MenuOutcome.ret "1"
  else if choice == "l" then MenuOutcome.ret "4"
  else if choice == "q" then MenuOutcome.ret "5"
  else
    match pyToNatOpt choice with
    | some app_idx =>
      if choice == "1" || choice == "2" || choice == "3" || choice == "4" ||
          choice == "5" then MenuOutcome.ret choice
      else
        let total_apps := installed_supported.length
        if 1 ≤ app_idx ∧ app_idx ≤ total_apps then
          let page_num := (app_idx - 1) / page_size
          let page_idx := (app_idx - 1) % page_size
          let effective_displayed :=
            if current_page ≠ page_num then displayAt page_num else last_displayed
          let new_page := if current_page ≠ page_num then page_num else current_page
          if page_idx < effective_displayed.length then
            let selected_app := effective_displayed.getD page_idx {}
            match installed_supported.findIdx?
                (fun a => a.packageName == selected_app.packageName) with
            | some global_idx => MenuOutcome.ret ("SELECT:" ++ toString global_idx)
            | none => MenuOutcome.again new_page
          else MenuOutcome.again new_page
        else MenuOutcome.again current_page
    | none => MenuOutcome.again current_page

/-- Spec-side description of the app-lookup outcome on a page: look at
the within-page offset of the displayed list, then find the app's global
index by package name. -/
def locate_outcome (installed_supported displayed : List CatalogEntry)
    (page off : Nat) : MenuOutcome :=
  if off < displayed.length then
    match installed_supported.findIdx?
        (fun a => a.packageName == (displayed.getD off {}).packageName) with
    | some global_idx => MenuOutcome.ret ("SELECT:" ++ toString global_idx)
    | none => MenuOutcome.again page
  else MenuOutcome.again page

/-- Sample catalog entry used in concrete counterexamples/witnesses. -/
def entryA : CatalogEntry := { packageName := some (PkgName.str "com.example.alpha") }

/-- Sample catalog entry used in concrete counterexamples/witnesses. -/
def entryB : CatalogEntry := { packageName := some (PkgName.str "com.example.beta") }

/-- Keyword-mode work-item expansion (`main.py` lines 220--226): a list
`packageName` yields one shallow copy per name with `packageName`
replaced by that single name; anything else yields the entry itself. -/
def expand_selected (e : CatalogEntry) : List CatalogEntry :=
  match e.packageName with
  | some (PkgName.list names) =>
      names.map (fun name => { e with packageName := some (PkgName.str name) })
  | _ => [e]

/-- Browse-all work-list construction (`main.py` lines 228--239):
entries flagged `forQiuChenly` are skipped entirely when
`/Users/qiuchenly` does not exist (`qiuchenly_dir`), otherwise the same
expansion as in keyword mode is applied inline. -/
def build_browse_list (qiuchenly_dir : Bool) : List CatalogEntry → List CatalogEntry
  | [] => []
  | app :: rest =>
    if app.forQiuChenly && !qiuchenly_dir then build_browse_list qiuchenly_dir rest
    else
      (match app.packageName with
        | some (PkgName.list names) =>
            names.map (fun name => { app with packageName := some (PkgName.str name) })
        | _ => [app]) ++ build_browse_list qiuchenly_dir rest

/-- A `forQiuChenly` entry with a single string package name, for the C9
counterexample. -/
def entryQ : CatalogEntry :=
  { packageName := some (PkgName.str "com.example.q"), forQiuChenly := true }

/-- The selection loop of `MenuManager.handle_app_search`
(`menu_manager.py` lines 268--313), run on a finite stream of user
inputs.  `selected` is the Python set of chosen indices (kept as a
duplicate-free list: insertion is guarded by membership), `app_Lst` the
chosen apps in selection order.  Returns `none` when the input stream is
exhausted while the loop still wants input (Python would block on
`input()`). -/
def handle_app_search_loop (matched_apps : List CatalogEntry) :
    List String → List Nat → List CatalogEntry → Option (List CatalogEntry)
  | inputs, selected, app_Lst =>
    if matched_apps.length ≤ selected.length then some app_Lst
    else
      match inputs with
      | [] => none
      | choice :: rest =>
        if choice = "0" then
          if app_Lst = [] then some [] else some app_Lst
        else if pyIsDigit choice ∧ 0 < pyToNat choice ∧
            pyToNat choice ≤ matched_apps.length then
          let index := pyToNat choice - 1
          if index ∈ selected then
            handle_app_search_loop matched_apps rest selected app_Lst
          else
            handle_app_search_loop matched_apps rest (index :: selected)
              (app_Lst ++ [matched_apps.getD index {}])
        else if choice = "" then
          if app_Lst = [] then handle_app_search_loop matched_apps rest selected app_Lst
          else some app_Lst
        else handle_app_search_loop matched_apps rest selected app_Lst

/-- `MenuManager.handle_app_search` (`menu_manager.py` lines 248--313):
empty keyword or no matches return the empty list at once, otherwise the
selection loop runs with an empty selection.  The keyword search itself
(`app_manager.search_by_keyword`) lives in the missing `src/app`
package, so the match list is a parameter. -/
def handle_app_search (keyword : String) (matched_apps : List CatalogEntry)
    (inputs : List String) : Option (List CatalogEntry) :=
  if keyword = "" then some []
  else if matched_apps = [] then some []
  else handle_app_search_loop matched_apps inputs [] []

/-- Spec-side selection order: scanning the input stream left to right
with the loop's exact control flow over `n` matched apps, the 0-based
indices of the apps the user successfully selects, in the order they are
selected.  It is a deterministic function of the input stream, so it
pins down the user's selection order; `none` when the stream runs out
while the loop still wants input. -/
def selection_spec (n : Nat) : List String → List Nat → Option (List Nat)
  | inputs, selected =>
    if n ≤ selected.length then some []
    else
      match inputs with
      | [] => none
      | choice :: rest =>
        if choice = "0" then some []
        else if pyIsDigit choice ∧ 0 < pyToNat choice ∧ pyToNat choice ≤ n then
          if pyToNat choice - 1 ∈ selected then selection_spec n rest selected
          else (selection_spec n rest ((pyToNat choice - 1) :: selected)).map
            (fun l2 => (pyToNat choice - 1) :: l2)
        else if choice = "" then
          if selected = [] then selection_spec n rest selected
          else some []
        else selection_spec n rest selected

/-- Observable actions of the per-app action sequencer (`main.py` lines
320--490 and `handle_helper`/`handle_keygen`), each constructor carrying
the data the source interpolates into the command. -/
inductive Effect where
  | runOnlysh (extraShell : Option String)
  | adobeChmodApps
  | adobeReadApps
  | adobeWriteApps (content : String)
  | sudoChmod777 (path : String)
  | sudoXattrCR (path : String)
  | sudoPkill (pattern : String)
  | keygenChmod
  | keygenRun (bundleId : Option String) (username : String)
  | removeBackup (path : String)
  | sudoCp (src dst : String)
  | chmodInsertDylib (path : String)
  | insertDylib (dylib src out : String)
  | copyDylib (src dst : String) (symlink : Bool)
  | codesignMain (deep : Bool) (entitlements : Option String) (target : String)
  | defaultsDisableLibValidation
  | runExtraShell (script : String)
  | tccReset (service bundleId : String)
  | genshineChmod
  | genshineRun (target : String) (extra : Option String)
  | launchctlUnload (plist : String)
  | sudoKillallRoot (helper : String)
  | sudoRm (path : String)
  | sudoXattrC (path : String)
  | plistBuddySet (helper infoPlist : String)
  | codesignHelper (target : String)
deriving DecidableEq, Repr

/-- Sequencer state: the ordered trace of issued effects, the count of
subprocess invocations so far (indexing the exit-code oracle), a `dead`
flag for an uncaught Python exception and a `done` flag for the loop's
`continue`. -/
structure SeqState where
  trace : List Effect := []
  idx : Nat := 0
  dead : Bool := false
  done : Bool := false
deriving DecidableEq, Repr

/-- Run one external command: `subprocess.run` returns a result carrying
the exit status, taken here from the oracle `o`; the source discards it,
so the sequel depends only on the trace/counter update. -/
def runE (o : Nat → Int) (e : Effect) (s : SeqState) : SeqState :=
  if s.dead || s.done then s
  else
    let _status := o s.idx
    { s with trace := s.trace ++ [e], idx := s.idx + 1 }

/-- A local (non-subprocess) file-system effect such as `os.remove` or a
file write. -/
def effE (e : Effect) (s : SeqState) : SeqState :=
  if s.dead || s.done then s else { s with trace := s.trace ++ [e] }

/-- An uncaught Python exception: processing of the app stops. -/
def crashE (s : SeqState) : SeqState :=
  if s.dead || s.done then s else { s with dead := true }

/-- The loop's `continue`: processing of this app is finished early. -/
def doneE (s : SeqState) : SeqState :=
  if s.dead || s.done then s else { s with done := true }

/-- The environment the sequencer reads (never the exit codes): file
existence, file contents, manifest lookups, the devel override, the
resolved script directory and the backup prompt answer. -/
structure Env where
  pathExists : String → Bool
  readFile : String → Option String
  mainExecutable : String → Option String
  bundleID : String → Option String
  username : String
  isDevHome : Option String
  parent : String
  backupAnswer : String

/-- Python f-string rendering of a possibly-`None` value. -/
def pyStr : Option String → String
  | some s => s
  | none => "None"

/-- Python's `s.startswith(pre)`. -/
def pyStartsWith (pre s : String) : Bool :=
  decide (pre.data <+: s.data)

/-- `l.split(sep)` on characters. -/
def splitOnChar (sep : Char) : List Char → List (List Char)
  | [] => [[]]
  | c :: rest =>
    let r := splitOnChar sep rest
    if c = sep then [] :: r
    else
      match r with
      | [] => [[c]]
      | h :: t => (c :: h) :: t

/-- Python's `s.split("/")[-1]`: the last slash-separated component. -/
def lastComponent (s : String) : String :=
  String.mk ((splitOnChar (Char.ofNat 47) s.data).getLastD [])

/-- The Adobe entitlement-patch file path (`main.py` lines 331--336). -/
def adobeAppsJs : String :=
  "/Applications/Utilities/Adobe Creative Cloud/Components/Apps/Apps1_0.js"

/-- The patched-marker checked at `main.py` line 343. -/
def adobeCheckStr : String :=
  "key:\"getEntitlementStatus\",value:function(e)\x7breturn \"Entitled Installed\""

/-- The pattern replaced at `main.py` line 347. -/
def adobeOldStr : String :=
  "key:\"getEntitlementStatus\",value:function(e)\x7b"

/-- The replacement written at `main.py` line 349. -/
def adobeNewStr : String :=
  "key:\"getEntitlementStatus\",value:function(e)\x7breturn \"Entitled Installed\";"

/-- `handle_helper` (`main.py` lines 99--149): chmod and run the helper
starter, inject into the helper, tear down an existing launch daemon,
clear attributes, rewrite `SMPrivilegedExecutables` in the app's (and
components') manifests, and re-sign helper and app. -/
def handle_helper (o : Nat → Int) (env : Env) (app_base target_helper : String)
    (component_apps : Option (List String)) (extra : Option String)
    (bridge_path : String) (s : SeqState) : SeqState :=
  let s := runE o Effect.genshineChmod s
  let s := runE o (Effect.genshineRun target_helper extra) s
  let s := runE o
    (Effect.insertDylib (bridge_path ++ "91QiuChenly.dylib") target_helper target_helper) s
  let helper_name := lastComponent target_helper
  let target := "/Library/LaunchDaemons/" ++ helper_name ++ ".plist"
  let s :=
    if env.pathExists target then
      let s := runE o (Effect.launchctlUnload target) s
      let s := runE o (Effect.sudoKillallRoot helper_name) s
      let s := runE o (Effect.sudoRm target) s
      runE o (Effect.sudoRm ("/Library/PrivilegedHelperTools/" ++ helper_name)) s
    else s
  let s := runE o (Effect.sudoXattrC app_base) s
  let src_info := (app_base ++ "/Contents/Info.plist") ::
    (match component_apps with
      | some comps => comps.map (fun i => app_base ++ i ++ "/Contents/Info.plist")
      | none => [])
  let s := src_info.foldl (fun s i => runE o (Effect.plistBuddySet helper_name i) s) s
  let s := runE o (Effect.codesignHelper target_helper) s
  runE o (Effect.codesignHelper app_base) s

/-- `main.py` lines 324--356: the `com.adobe` special case.  A `None`
bundle identifier would raise at `.startswith` (crash); the not-exists
branch opens `adobeAppsJs`, which raises when the file is unreadable,
otherwise patches it unless the marker is already present. -/
def adobe_phase (o : Nat → Int) (env : Env) (local_app : InstalledApp)
    (s : SeqState) : SeqState :=
  match local_app.CFBundleIdentifier with
  | none => crashE s
  | some bid =>
    if pyStartsWith "com.adobe" bid then
      let s := runE o Effect.adobeChmodApps s
      if !env.pathExists adobeAppsJs then
        match env.readFile adobeAppsJs with
        | none => crashE s
        | some content =>
          let s := effE Effect.adobeReadApps s
          if !(decide (adobeCheckStr.data <:+: content.data)) then
            effE (Effect.adobeWriteApps (content.replace adobeOldStr adobeNewStr)) s
          else s
      else s
    else s

/-- `main.py` lines 363--365: `getAppMainExecutable` reads the manifest
(raising on a missing file or key), then `sudo pkill -f` on it. -/
def pkill_phase (o : Nat → Int) (env : Env) (app_base_locate : String)
    (s : SeqState) : SeqState :=
  match env.mainExecutable app_base_locate with
  | none => crashE s
  | some exe => runE o (Effect.sudoPkill exe) s

/-- `main.py` lines 376--383: reuse an existing backup unless the user
answers `n` (then remove it and copy afresh); create the backup when
none exists. -/
def backup_phase (o : Nat → Int) (env : Env) (dest backup : String)
    (s : SeqState) : SeqState :=
  if env.pathExists backup then
    if env.backupAnswer = "n" then
      let s := effE (Effect.removeBackup backup) s
      runE o (Effect.sudoCp dest backup) s
    else s
  else runE o (Effect.sudoCp dest backup) s

/-- `main.py` lines 385--423: chmod the bundled injector, build the
injection command(s) — the default reads `backup` into `dest`; with
`needCopyToAppDir` the dylib is copied (or dev-symlinked) beside the app
and one command per desired binary is built, every one reading from
`backup` — then run them. -/
def inject_phase (o : Nat → Int) (env : Env) (app : CatalogEntry)
    (app_base_locate : String) (bridge_file : Option String)
    (dest backup : String) (s : SeqState) : SeqState :=
  let s := runE o (Effect.chmodInsertDylib (env.parent ++ "/tool/insert_dylib")) s
  if app.needCopyToAppDir then
    let source_dylib :=
      match env.isDevHome with
      | some p => p
      | none => env.parent ++ "/tool/91QiuChenly.dylib"
    let destination_dylib := app_base_locate ++ pyStr bridge_file ++ "91QiuChenly.dylib"
    let s := runE o (Effect.copyDylib source_dylib destination_dylib env.isDevHome.isSome) s
    let comps :=
      match app.componentApp with
      | some l => if l.isEmpty then [] else l
      | none => []
    match comps.mapM (fun i => env.mainExecutable (app_base_locate ++ i)) with
    | none => crashE s
    | some exes =>
      let desireApp := dest :: (comps.zip exes).map
        (fun p => app_base_locate ++ p.1 ++ "/Contents/MacOS/" ++ p.2)
      (desireApp.map (fun it => Effect.insertDylib destination_dylib backup it)).foldl
        (fun s e => runE o e s) s
  else
    runE o (Effect.insertDylib (env.parent ++ "/tool/91QiuChenly.dylib") backup dest) s

/-- `main.py` lines 425--454: codesign the injection target unless
`noSignTarget` (deep unless `noDeep`, with optional entitlements),
optionally disable library validation, run the extra shell script,
optionally deep-sign the whole bundle, clear attributes on the target. -/
def sign_phase (o : Nat → Int) (env : Env) (app : CatalogEntry)
    (app_base_locate dest : String) (s : SeqState) : SeqState :=
  let deep := !app.noDeep
  let s :=
    if !app.noSignTarget then runE o (Effect.codesignMain deep app.entitlements dest) s
    else s
  let s :=
    if app.disableLibraryValidate then runE o Effect.defaultsDisableLibValidation s
    else s
  let s :=
    match app.extraShell with
    | some sh2 => runE o (Effect.runExtraShell (env.parent ++ "/tool/" ++ sh2)) s
    | none => s
  let s :=
    if app.deepSignApp then runE o (Effect.codesignMain deep app.entitlements app_base_locate) s
    else s
  runE o (Effect.sudoXattrCR dest) s

/-- Python truthiness of the `helperFile` value. -/
def helperTruthy : Option HelperVal → Bool
  | some (HelperVal.str h) => !(h = "")
  | some (HelperVal.list l) => !l.isEmpty
  | none => false

/-- `main.py` lines 455--470: with `autoHandleHelper` and a truthy
`helperFile`, run `handle_helper` for each listed helper. -/
def helper_phase (o : Nat → Int) (env : Env) (app : CatalogEntry)
    (app_base_locate : String) (bridge_file : Option String)
    (s : SeqState) : SeqState :=
  if app.autoHandleHelper && helperTruthy app.helperFile then
    let helpers :=
      match app.helperFile with
      | some (HelperVal.list l) => l
      | some (HelperVal.str h) => [h]
      | none => []
    helpers.foldl
      (fun s helper =>
        handle_helper o env app_base_locate (app_base_locate ++ helper)
          app.componentApp app.SMExtra (app_base_locate ++ pyStr bridge_file) s) s
  else s

/-- Python truthiness of the `tccutil` value. -/
def tccTruthy : TccVal → Bool
  | TccVal.str t => !(t = "")
  | TccVal.list l => !l.isEmpty

/-- `main.py` lines 471--488: reset the listed TCC services for the
app's bundle id and each component's bundle id (`getBundleID` raises on
a missing manifest: crash). -/
def tcc_phase (o : Nat → Int) (env : Env) (app : CatalogEntry)
    (local_app : InstalledApp) (app_base_locate : String) (s : SeqState) : SeqState :=
  match app.tccutil with
  | none => s
  | some tv =>
    if tccTruthy tv then
      let compIds :=
        match app.componentApp with
        | some comps => comps.mapM (fun i => env.bundleID (app_base_locate ++ i))
        | none => some []
      match compIds with
      | none => crashE s
      | some cids =>
        let ids := pyStr local_app.CFBundleIdentifier :: cids
        ids.foldl
          (fun s id2 =>
            match tv with
            | TccVal.str t => runE o (Effect.tccReset t id2) s
            | TccVal.list ts => ts.foldl (fun s t => runE o (Effect.tccReset t id2) s) s) s
    else s

/-- The injection target `dest = rf"{app_base_locate}{bridge_file}{inject_file}"`
(`main.py` line 373). -/
def destPath (app_base_locate : String) (bridge_file inject_file : Option String) : String :=
  app_base_locate ++ pyStr bridge_file ++ pyStr inject_file

/-- The backup path `rf"{dest}_backup"` (`main.py` line 374). -/
def backupPath (dest : String) : String :=
  dest ++ "_backup"

/-- `main.py` lines 324--365 common to every non-`onlysh` app: Adobe
special case, `sudo chmod -R 777` and `sudo xattr -cr` on the bundle,
kill the running main executable. -/
def prep_phase (o : Nat → Int) (env : Env) (local_app : InstalledApp)
    (app_base_locate : String) : SeqState :=
  pkill_phase o env app_base_locate
    (runE o (Effect.sudoXattrCR app_base_locate)
      (runE o (Effect.sudoChmod777 app_base_locate)
        (adobe_phase o env local_app {})))

/-- The per-app action sequencer, `main.py` lines 320--490, for an app
that passed the compatibility gate and was approved by the user:
`onlysh` short-circuit, Adobe special case, permission/attribute reset
and process kill, `keygen` short-circuit, backup, injection, signing,
helper patching and TCC reset, in source order.  `app_base_locate`,
`bridge_file` and `inject_file` are the values resolved at lines
286--300. -/
def process_app (o : Nat → Int) (env : Env) (app : CatalogEntry)
    (local_app : InstalledApp) (app_base_locate : String)
    (bridge_file inject_file : Option String) : SeqState :=
  if app.onlysh then doneE (runE o (Effect.runOnlysh app.extraShell) {})
  else if app.keygen then
    doneE (runE o (Effect.keygenRun local_app.CFBundleIdentifier env.username)
      (runE o Effect.keygenChmod
        (prep_phase o env local_app app_base_locate)))
  else
    tcc_phase o env app local_app app_base_locate
      (helper_phase o env app app_base_locate bridge_file
        (sign_phase o env app app_base_locate
          (destPath app_base_locate bridge_file inject_file)
          (inject_phase o env app app_base_locate bridge_file
            (destPath app_base_locate bridge_file inject_file)
            (backupPath (destPath app_base_locate bridge_file inject_file))
            (backup_phase o env
              (destPath app_base_locate bridge_file inject_file)
              (backupPath (destPath app_base_locate bridge_file inject_file))
              (prep_phase o env local_app app_base_locate)))))

/-- A sample environment for the backup-phase witnesses: the backup for
`/Applications/X.app/Contents/MacOS/X` exists and the user keeps it. -/
def envKeep : Env :=
  { pathExists := fun p => p == "/Applications/X.app/Contents/MacOS/X_backup"
    readFile := fun _ => none
    mainExecutable := fun _ => some "X"
    bundleID := fun _ => some "com.example.x"
    username := "user"
    isDevHome := none
    parent := "/work"
    backupAnswer := "y" }

/-- C1: `search_apps` returns exactly the catalog entries matched by the
spec's predicate (keyword case-insensitively inside a package name, or
inside the display name of the installed app whose identifier equals the
entry's package name), as a filter of the catalog: hence the result is a
subsequence of the catalog (order preserved, no ranking) and each
matching catalog occurrence appears exactly once. -/
theorem search_apps_eq_filter (app_list : List CatalogEntry)
    (install_apps : List InstalledApp) (keyword : String) :
    search_apps app_list install_apps keyword
        = app_list.filter (matcher_spec install_apps keyword) ∧
      (search_apps app_list install_apps keyword).Sublist app_list := by
  have hmain : ∀ l : List CatalogEntry,
      search_apps l install_apps keyword
        = l.filter (matcher_spec install_apps keyword) := by
    intro l
    induction l with
    | nil => rfl
    | cons app rest ih =>
      simp only [search_apps, List.filter_cons, ih]
      cases h : app.packageName with
      | none =>
        simp [matcher_spec, displayNameMatch, packageNamesOf, h]
      | some p =>
        cases p with
        | str s =>
          by_cases hs : lowerContains keyword s
          · simp [matcher_spec, displayNameMatch, packageNamesOf, h, hs]
          · simp [matcher_spec, displayNameMatch, packageNamesOf, h, hs]
        | list names =>
          by_cases hs : names.any (fun name => lowerContains keyword name)
          · simp [matcher_spec, displayNameMatch, packageNamesOf, h, hs]
          · simp [matcher_spec, displayNameMatch, packageNamesOf, h, hs]
  refine ⟨hmain app_list, ?_⟩
  rw [hmain app_list]
  exact List.filter_sublist app_list

/-- Shape of `check_compatible` when both allow-lists are present. -/
lemma check_compatible_some_some (a b : List String) (av asv : String) :
    check_compatible (some a) (some b) av asv
      = (a.any (fun c => av == c) || b.any (fun c => asv == c)) := by
  by_cases h : a.any (fun c => av == c) <;> simp [check_compatible, h]

/-- Shape of `check_compatible` when only the version list is present. -/
lemma check_compatible_some_none (a : List String) (av asv : String) :
    check_compatible (some a) none av asv = a.any (fun c => av == c) := by
  by_cases h : a.any (fun c => av == c) <;> simp [check_compatible, h]

/-- Shape of `check_compatible` when only the sub-version list is present. -/
lemma check_compatible_none_some (b : List String) (av asv : String) :
    check_compatible none (some b) av asv = b.any (fun c => asv == c) := by
  simp [check_compatible]

/-- C2: `check_compatible` is true exactly when both allow-lists are
absent, or the installed version equals an element of the declared
version allow-list, or the installed sub-version equals an element of the
declared sub-version allow-list.  It is a pure Lean function, hence a
side-effect-free predicate. -/
theorem check_compatible_iff (cvc cvs : Option (List String)) (av asv : String) :
    check_compatible cvc cvs av asv = true ↔
      (cvc = none ∧ cvs = none) ∨
        (∃ c ∈ cvc.getD [], av = c) ∨
        (∃ c ∈ cvs.getD [], asv = c) := by
  cases cvc with
  | none =>
    cases cvs with
    | none => simp [check_compatible]
    | some codes =>
      simp [check_compatible_none_some, List.any_eq_true]
  | some codes =>
    cases cvs with
    | none =>
      simp [check_compatible_some_none, List.any_eq_true]
    | some codes2 =>
      simp [check_compatible_some_some, List.any_eq_true]

/-- Per-root agreement between the scanner loop and the spec-side
`filterMap`. -/
lemma scanEntries_eq_filterMap (fs : FS) (base_dir : String) (apps : List String) :
    scanEntries fs base_dir apps
      = apps.filterMap (fun app =>
          if fs.pathExists (infoPlistPath base_dir app) then
            (fs.loadPlist (infoPlistPath base_dir app)).map
              (parse_app_info (base_dir ++ "/" ++ app))
          else none) := by
  induction apps with
  | nil => rfl
  | cons app rest ih =>
    simp only [scanEntries, List.filterMap_cons]
    by_cases h : fs.pathExists (infoPlistPath base_dir app)
    · cases hp : fs.loadPlist (infoPlistPath base_dir app) <;>
        simp [h, hp, ih]
    · simp [h, ih]

/-- C5: `scan_apps` equals the spec-side characterisation: it yields
exactly one `InstalledApp` record per subdirectory of an existing root
whose manifest exists and parses, in scan order; subdirectories with a
missing or unparsable manifest contribute nothing, and the scan is a
total function (it never raises). -/
theorem scan_apps_eq_spec (fs : FS) :
    scan_apps fs = scan_spec fs := by
  have h : ∀ roots : List String,
      scanRoots fs roots
        = (roots.filter fs.pathExists).flatMap (fun base_dir =>
            (fs.listdir base_dir).filterMap fun app =>
              if fs.pathExists (infoPlistPath base_dir app) then
                (fs.loadPlist (infoPlistPath base_dir app)).map
                  (parse_app_info (base_dir ++ "/" ++ app))
              else none) := by
    intro roots
    induction roots with
    | nil => rfl
    | cons base_dir rest ih =>
      by_cases hb : fs.pathExists base_dir
      · simp [scanRoots, hb, ih, scanEntries_eq_filterMap]
      · simp [scanRoots, hb, ih]
  exact h base_dirs

/-- C8: every record built by `parse_app_info` — and hence every record
returned by `scan_apps` — has its display name `CFBundleName` equal to
its `CFBundleExecutable`, because line 44 of `main.py` populates
`CFBundleName` from the manifest's `CFBundleExecutable` key. -/
theorem parse_app_info_name_eq_executable :
    (∀ (base : String) (info : Plist),
        (parse_app_info base info).CFBundleName
          = (parse_app_info base info).CFBundleExecutable) ∧
      ∀ (fs : FS), ∀ r ∈ scan_apps fs,
        r.CFBundleName = r.CFBundleExecutable := by
  constructor
  · intro base info
    rfl
  · intro fs r hr
    rw [scan_apps_eq_spec] at hr
    simp only [scan_spec, List.mem_flatMap, List.mem_filterMap] at hr
    obtain ⟨base_dir, _, app, _, happ⟩ := hr
    by_cases h : fs.pathExists (infoPlistPath base_dir app)
    · rw [if_pos h] at happ
      cases hp : fs.loadPlist (infoPlistPath base_dir app) with
      | none => rw [hp] at happ; cases happ
      | some info =>
        rw [hp] at happ
        rw [← Option.some.inj happ]
        rfl
    · simp [h] at happ

/-- Witness for C8: the theorem applied to a concrete one-app
filesystem, with the membership hypothesis discharged by evaluation. -/
theorem parse_app_info_name_eq_executable_witness :
    (parse_app_info "/Applications/App1.app"
        { CFBundleIdentifier := some "com.example.app1"
          CFBundleVersion := some "100"
          CFBundleShortVersionString := some "1.0"
          CFBundleExecutable := some "App1" } ∈ scan_apps fs1) ∧
      (parse_app_info "/Applications/App1.app"
          { CFBundleIdentifier := some "com.example.app1"
            CFBundleVersion := some "100"
            CFBundleShortVersionString := some "1.0"
            CFBundleExecutable := some "App1" }).CFBundleName
        = (parse_app_info "/Applications/App1.app"
            { CFBundleIdentifier := some "com.example.app1"
              CFBundleVersion := some "100"
              CFBundleShortVersionString := some "1.0"
              CFBundleExecutable := some "App1" }).CFBundleExecutable := by
  refine ⟨by decide, ?_⟩
  exact parse_app_info_name_eq_executable.2 fs1 _ (by decide)

/-- C4 counterexample: at the app-selection-number prompt of `main.py`
(lines 212--218), the invalid input "abc" does not re-prompt — the
program prints an exit message and terminates the run
(`SelResult.exit`), contradicting the claim that every interactive
prompt re-prompts on invalid input. -/
theorem select_app_choice_invalid_exits_cex :
    select_app_choice [entryA, entryB] "abc" = SelResult.exit := by
  decide

/-- C4 amended: invalid input at the `MenuManager.show_main_menu`
operation prompt re-prompts (the loop continues on the same page), but
at `main.py`'s app-selection-number prompt any invalid input — a
non-digit string, `0`, or a number beyond the match count — makes the
program exit instead of re-prompting. -/
theorem invalid_input_behaviour (matched : List CatalogEntry) (choice : String)
    (current_page total_pages page_size : Nat)
    (installed_supported : List CatalogEntry)
    (displayAt : Nat → List CatalogEntry) (last_displayed : List CatalogEntry)
    (mchoice : String) (n : Nat) :
    ((pyToNatOpt choice = none ∨ pyToNatOpt choice = some 0 ∨
        (∃ k, pyToNatOpt choice = some k ∧ matched.length < k)) →
      select_app_choice matched choice = SelResult.exit) ∧
    (mchoice ∉ (["n", "p", "s", "l", "q"] : List String) →
      pyToNatOpt mchoice = none →
      show_main_menu_step current_page total_pages page_size installed_supported
          displayAt last_displayed mchoice = MenuOutcome.again current_page) ∧
    (mchoice ∉ (["n", "p", "s", "l", "q", "1", "2", "3", "4", "5"] : List String) →
      pyToNatOpt mchoice = some n →
      (n = 0 ∨ installed_supported.length < n) →
      show_main_menu_step current_page total_pages page_size installed_supported
          displayAt last_displayed mchoice = MenuOutcome.again current_page) := by
  refine ⟨?_, ?_, ?_⟩
  · intro h
    rcases h with h | h | ⟨k, hk, hlt⟩
    · simp [select_app_choice, h]
    · simp [select_app_choice, h]
    · simp only [select_app_choice, hk]
      rw [if_pos]
      simp [hlt]
  · intro hmem hnone
    simp only [List.mem_cons, List.not_mem_nil, or_false, not_or] at hmem
    obtain ⟨h1, h2, h3, h4, h5⟩ := hmem
    simp [show_main_menu_step, h1, h2, h3, h4, h5, hnone]
  · intro hmem hsome hrange
    simp only [List.mem_cons, List.not_mem_nil, or_false, not_or] at hmem
    obtain ⟨h1, h2, h3, h4, h5, h6, h7, h8, h9, h10⟩ := hmem
    have hidx : ¬(1 ≤ n ∧ n ≤ installed_supported.length) := by
      rcases hrange with h0 | hgt
      · omega
      · omega
    simp [show_main_menu_step, h1, h2, h3, h4, h5, h6, h7, h8, h9, h10, hsome, hidx]

/-- Witness for the amended C4 theorem: concrete invalid inputs at both
prompts — "abc" exits the `main.py` selection prompt, "zz" re-prompts
the menu, and "7" (out of range for an empty installed list) re-prompts
the menu. -/
theorem invalid_input_behaviour_witness :
    select_app_choice [entryA, entryB] "zzz" = SelResult.exit ∧
      show_main_menu_step 2 5 20 [entryA] (fun _ => []) [] "zz"
          = MenuOutcome.again 2 ∧
      show_main_menu_step 2 5 20 [entryA] (fun _ => []) [] "7"
          = MenuOutcome.again 2 := by
  refine ⟨?_, ?_, ?_⟩
  · exact (invalid_input_behaviour [entryA, entryB] "zzz" 2 5 20 [entryA]
      (fun _ => []) [] "zz" 7).1 (Or.inl (by decide))
  · exact (invalid_input_behaviour [entryA, entryB] "zzz" 2 5 20 [entryA]
      (fun _ => []) [] "zz" 7).2.1 (by decide) (by decide)
  · exact (invalid_input_behaviour [entryA, entryB] "zzz" 2 5 20 [entryA]
      (fun _ => []) [] "7" 7).2.2 (by decide) (by decide) (by decide)

/-- C7: pagination correctness.  For a digit choice `i` (not one of the
reserved menu strings) with `1 ≤ i ≤ N` where `N` is the length of the
installed-supported list: the within-page offset `(i-1) % S` is below
the page size `S`, the decomposition `S * ((i-1)/S) + (i-1)%S = i-1`
shows item `i` is located on page `(i-1)/S` at offset `(i-1)%S`, and
`show_main_menu_step` resolves the choice through exactly that page and
offset (the freshly displayed page when it differs from the current one,
the last displayed list otherwise).  Navigation: `n` and `p` keep the
page within `0..total_pages-1`, refusing to move past the last or the
first page. -/
theorem pagination_correct (current_page total_pages page_size : Nat)
    (installed_supported : List CatalogEntry)
    (displayAt : Nat → List CatalogEntry) (last_displayed : List CatalogEntry)
    (choice : String) (i : Nat) :
    (0 < page_size →
      pyToNatOpt choice = some i →
      choice ∉ (["n", "p", "s", "l", "q", "1", "2", "3", "4", "5"] : List String) →
      1 ≤ i → i ≤ installed_supported.length →
      ((i - 1) % page_size < page_size ∧
        page_size * ((i - 1) / page_size) + (i - 1) % page_size = i - 1 ∧
        (current_page ≠ (i - 1) / page_size →
          show_main_menu_step current_page total_pages page_size installed_supported
              displayAt last_displayed choice
            = locate_outcome installed_supported (displayAt ((i - 1) / page_size))
                ((i - 1) / page_size) ((i - 1) % page_size)) ∧
        (current_page = (i - 1) / page_size →
          show_main_menu_step current_page total_pages page_size installed_supported
              displayAt last_displayed choice
            = locate_outcome installed_supported last_displayed
                current_page ((i - 1) % page_size)))) ∧
    (∃ p2, show_main_menu_step current_page total_pages page_size installed_supported
          displayAt last_displayed "n" = MenuOutcome.again p2 ∧
        (current_page ≤ total_pages - 1 → p2 ≤ total_pages - 1) ∧
        (current_page = total_pages - 1 → p2 = current_page)) ∧
    (∃ p2, show_main_menu_step current_page total_pages page_size installed_supported
          displayAt last_displayed "p" = MenuOutcome.again p2 ∧
        p2 ≤ current_page ∧ (current_page = 0 → p2 = 0)) := by
  refine ⟨?_, ?_, ?_⟩
  · intro hS hsome hmem h1 hN
    simp only [List.mem_cons, List.not_mem_nil, or_false, not_or] at hmem
    obtain ⟨m1, m2, m3, m4, m5, m6, m7, m8, m9, m10⟩ := hmem
    refine ⟨Nat.mod_lt _ hS, Nat.div_add_mod (i - 1) page_size, ?_, ?_⟩
    · intro hcp
      simp [show_main_menu_step, m1, m2, m3, m4, m5, m6, m7, m8, m9, m10,
        hsome, h1, hN, hcp, locate_outcome]
    · intro hcp
      simp [show_main_menu_step, m1, m2, m3, m4, m5, m6, m7, m8, m9, m10,
        hsome, h1, hN, hcp, locate_outcome]
  · by_cases h : current_page < total_pages - 1
    · exact ⟨current_page + 1, by simp [show_main_menu_step, h], by omega, by omega⟩
    · exact ⟨current_page, by simp [show_main_menu_step, h], by omega, by omega⟩
  · by_cases h : current_page > 0
    · exact ⟨current_page - 1, by simp [show_main_menu_step, h], by omega, by omega⟩
    · exact ⟨current_page, by simp [show_main_menu_step, h], by omega, by omega⟩

/-- Witness for C7: item 45 with page size 20 lives on page 2 at offset
4; with the current page elsewhere, the step switches to page 2 and
selects the app there, and navigation behaves at the bounds. -/
theorem pagination_correct_witness :
    (0 < 20 ∧ (pyToNatOpt "45" = some 45) ∧
      (45 - 1) % 20 < 20 ∧
      show_main_menu_step 0 3 20 (List.replicate 45 entryA)
          (fun _ => [entryB, entryB, entryB, entryB, entryB]) [] "45"
        = locate_outcome (List.replicate 45 entryA)
            [entryB, entryB, entryB, entryB, entryB] 2 4) ∧
      show_main_menu_step 2 3 20 [] (fun _ => []) [] "n" = MenuOutcome.again 2 := by
  have h := pagination_correct 0 3 20 (List.replicate 45 entryA)
    (fun _ => [entryB, entryB, entryB, entryB, entryB]) [] "45" 45
  have hmain := h.1 (by decide) (by decide) (by decide) (by decide) (by decide)
  refine ⟨⟨by decide, by decide, hmain.1, ?_⟩, ?_⟩
  · exact hmain.2.2.1 (by decide)
  · have h2 := (pagination_correct 2 3 20 [] (fun _ => []) [] "45" 45).2.1
    obtain ⟨p2, heq, _, hlast⟩ := h2
    rw [heq, hlast rfl]

/-- C9 counterexample: in browse-all mode, with `/Users/qiuchenly`
absent, a `forQiuChenly` entry with a string `packageName` yields zero
work items rather than exactly one — the claim's "each entry in
browse-all mode" ignores the `forQiuChenly` skip at `main.py` line 231. -/
theorem build_browse_list_skips_forQiuChenly_cex :
    build_browse_list false [entryQ] = [] ∧
      build_browse_list false [entryQ] ≠ [entryQ] := by
  decide

/-- C9 amended: a list `packageName` expands into one work item per
listed name, each a shallow copy with only `packageName` replaced; a
string (or absent) `packageName` yields exactly the entry itself; and
browse-all mode applies this expansion to every entry except that an
entry flagged `forQiuChenly` is skipped entirely (zero work items) when
`/Users/qiuchenly` does not exist. -/
theorem work_item_expansion (e : CatalogEntry) (names : List String)
    (x : CatalogEntry) (qiuchenly_dir : Bool) (apps : List CatalogEntry) :
    (e.packageName = some (PkgName.list names) →
      expand_selected e
        = names.map (fun name => { e with packageName := some (PkgName.str name) })) ∧
    ((∀ l, e.packageName ≠ some (PkgName.list l)) → expand_selected e = [e]) ∧
    (x ∈ expand_selected e →
      { x with packageName := none } = { e with packageName := none }) ∧
    (build_browse_list qiuchenly_dir apps
      = apps.flatMap fun a =>
          if a.forQiuChenly && !qiuchenly_dir then [] else expand_selected a) := by
  refine ⟨?_, ?_, ?_, ?_⟩
  · intro h
    simp [expand_selected, h]
  · intro h
    cases hp : e.packageName with
    | none => simp [expand_selected, hp]
    | some p =>
      cases p with
      | str s => simp [expand_selected, hp]
      | list l => exact absurd hp (h l)
  · intro hx
    cases hp : e.packageName with
    | none =>
      simp only [expand_selected, hp, List.mem_singleton] at hx
      rw [hx]
    | some p =>
      cases p with
      | str s =>
        simp only [expand_selected, hp, List.mem_singleton] at hx
        rw [hx]
      | list names2 =>
        simp only [expand_selected, hp, List.mem_map] at hx
        obtain ⟨name, _, hmk⟩ := hx
        rw [← hmk]
  · induction apps with
    | nil => rfl
    | cons a rest ih =>
      simp only [build_browse_list, List.flatMap_cons, ih]
      cases hq : (a.forQiuChenly && !qiuchenly_dir) with
      | true => simp
      | false =>
        cases hp : a.packageName with
        | none => simp [expand_selected, hp]
        | some p =>
          cases p with
          | str s => simp [expand_selected, hp]
          | list names2 => simp [expand_selected, hp]

/-- Witness for the amended C9 theorem: a two-name list entry expands to
two single-name copies, a string entry to itself, fields other than
`packageName` are preserved, and browse-all both skips the
`forQiuChenly` entry and expands the others. -/
theorem work_item_expansion_witness :
    (expand_selected { packageName := some (PkgName.list ["a.one", "a.two"]), onlysh := true }
        = [{ packageName := some (PkgName.str "a.one"), onlysh := true },
           { packageName := some (PkgName.str "a.two"), onlysh := true }]) ∧
      expand_selected entryA = [entryA] ∧
      ({ packageName := none, onlysh := true } : CatalogEntry)
        = { packageName := none, onlysh := true } ∧
      build_browse_list false [entryQ, entryA]
        = [] ++ expand_selected entryA := by
  refine ⟨?_, ?_, ?_, ?_⟩
  · exact (work_item_expansion
      { packageName := some (PkgName.list ["a.one", "a.two"]), onlysh := true }
      ["a.one", "a.two"] entryA false []).1 rfl
  · exact (work_item_expansion entryA [] entryA false []).2.1
      (by intro l h; simp [entryA] at h)
  · exact (work_item_expansion
      { packageName := some (PkgName.list ["a.one", "a.two"]), onlysh := true }
      ["a.one", "a.two"] { packageName := some (PkgName.str "a.one"), onlysh := true }
      false []).2.2.1 (by decide)
  · have h := (work_item_expansion entryA [] entryA false [entryQ, entryA]).2.2.2
    simpa [entryQ, entryA] using h

/-- The spec-side selection order is duplicate-free, in range, and
avoids the already-selected set. -/
lemma selection_spec_props (n : Nat) :
    ∀ (inputs : List String) (selected idxs : List Nat),
      selection_spec n inputs selected = some idxs →
      idxs.Nodup ∧ (∀ i ∈ idxs, i < n) ∧ ∀ i ∈ idxs, i ∉ selected := by
  intro inputs
  induction inputs with
  | nil =>
    intro selected idxs h
    simp only [selection_spec] at h
    by_cases hg : n ≤ selected.length
    · rw [if_pos hg] at h
      obtain rfl := (Option.some.inj h).symm
      exact ⟨List.nodup_nil, by simp, by simp⟩
    · rw [if_neg hg] at h; cases h
  | cons choice rest ih =>
    intro selected idxs h
    simp only [selection_spec] at h
    by_cases hg : n ≤ selected.length
    · rw [if_pos hg] at h
      obtain rfl := (Option.some.inj h).symm
      exact ⟨List.nodup_nil, by simp, by simp⟩
    rw [if_neg hg] at h
    by_cases h0 : choice = "0"
    · rw [if_pos h0] at h
      obtain rfl := (Option.some.inj h).symm
      exact ⟨List.nodup_nil, by simp, by simp⟩
    rw [if_neg h0] at h
    by_cases hd : pyIsDigit choice ∧ 0 < pyToNat choice ∧ pyToNat choice ≤ n
    · rw [if_pos hd] at h
      by_cases hmem : pyToNat choice - 1 ∈ selected
      · rw [if_pos hmem] at h
        exact ih selected idxs h
      · rw [if_neg hmem] at h
        cases hsp : selection_spec n rest ((pyToNat choice - 1) :: selected) with
        | none => rw [hsp] at h; cases h
        | some idxs2 =>
          rw [hsp] at h
          obtain rfl := (Option.some.inj h).symm
          obtain ⟨hnd2, hbd2, hns2⟩ := ih _ idxs2 hsp
          refine ⟨?_, ?_, ?_⟩
          · exact List.nodup_cons.mpr
              ⟨fun hc => (hns2 _ hc) (List.mem_cons_self _ _), hnd2⟩
          · intro i hi
            rcases List.mem_cons.mp hi with rfl | hi
            · omega
            · exact hbd2 i hi
          · intro i hi
            rcases List.mem_cons.mp hi with rfl | hi
            · exact hmem
            · exact fun hc => (hns2 i hi) (List.mem_cons_of_mem _ hc)
    rw [if_neg hd] at h
    by_cases he : choice = ""
    · rw [if_pos he] at h
      by_cases hsel : selected = []
      · rw [if_pos hsel] at h
        exact ih selected idxs h
      · rw [if_neg hsel] at h
        obtain rfl := (Option.some.inj h).symm
        exact ⟨List.nodup_nil, by simp, by simp⟩
    · rw [if_neg he] at h
      exact ih selected idxs h

/-- The selection loop computes exactly the spec-side selection order:
running it with accumulated index list `accIdx` (selected set =
`accIdx.reverse`, accumulated apps = the image of `accIdx`) returns the
image of `accIdx` extended by the indices `selection_spec` extracts from
the remaining inputs, in that order. -/
lemma handle_app_search_loop_spec (matched : List CatalogEntry) :
    ∀ (inputs : List String) (accIdx : List Nat),
      handle_app_search_loop matched inputs accIdx.reverse
          (accIdx.map (fun i => matched.getD i {}))
        = (selection_spec matched.length inputs accIdx.reverse).map
            (fun idxs => (accIdx ++ idxs).map (fun i => matched.getD i {})) := by
  intro inputs
  induction inputs with
  | nil =>
    intro accIdx
    simp only [handle_app_search_loop, selection_spec]
    by_cases hg : matched.length ≤ accIdx.reverse.length
    · rw [if_pos hg, if_pos hg]
      simp
    · rw [if_neg hg, if_neg hg]
      rfl
  | cons choice rest ih =>
    intro accIdx
    simp only [handle_app_search_loop, selection_spec]
    by_cases hg : matched.length ≤ accIdx.reverse.length
    · rw [if_pos hg, if_pos hg]
      simp
    rw [if_neg hg, if_neg hg]
    by_cases h0 : choice = "0"
    · rw [if_pos h0, if_pos h0]
      by_cases hnil : accIdx = []
      · subst hnil
        simp
      · rw [if_neg (fun hmap => hnil (List.map_eq_nil_iff.mp hmap))]
        simp
    rw [if_neg h0, if_neg h0]
    by_cases hd : pyIsDigit choice ∧ 0 < pyToNat choice ∧
        pyToNat choice ≤ matched.length
    · rw [if_pos hd, if_pos hd]
      by_cases hmem : pyToNat choice - 1 ∈ accIdx.reverse
      · rw [if_pos hmem, if_pos hmem]
        exact ih accIdx
      · rw [if_neg hmem, if_neg hmem]
        have h1 : (pyToNat choice - 1) :: accIdx.reverse
            = (accIdx ++ [pyToNat choice - 1]).reverse := by
          simp
        have h2 : accIdx.map (fun i => matched.getD i {})
              ++ [matched.getD (pyToNat choice - 1) {}]
            = (accIdx ++ [pyToNat choice - 1]).map (fun i => matched.getD i {}) := by
          simp
        rw [h1, h2, ih (accIdx ++ [pyToNat choice - 1])]
        cases hsp : selection_spec matched.length rest
            (accIdx ++ [pyToNat choice - 1]).reverse with
        | none => rfl
        | some idxs2 => simp
    rw [if_neg hd, if_neg hd]
    by_cases he : choice = ""
    · rw [if_pos he, if_pos he]
      by_cases hnil : accIdx = []
      · subst hnil
        rw [if_pos (by simp), if_pos (by simp)]
        exact ih []
      · rw [if_neg (fun hmap => hnil (List.map_eq_nil_iff.mp hmap)),
          if_neg (fun hrev => hnil (List.reverse_eq_nil_iff.mp hrev))]
        simp
    · rw [if_neg he, if_neg he]
      exact ih accIdx

/-- C10: every list returned by `handle_app_search` is the image of a
duplicate-free sequence of in-range indices into the matched list — so
every element is a matched app and each matched occurrence appears at
most once — and (in the non-degenerate case of a nonempty keyword and a
nonempty match list) that index sequence is exactly `selection_spec`,
the deterministic left-to-right scan of the input stream, so the
returned list preserves the order in which the user selected the apps.
Entering `0` as the first input (cancelling before any selection)
returns the empty list. -/
theorem handle_app_search_nodup_selection (keyword : String)
    (matched : List CatalogEntry) (inputs : List String) (l : List CatalogEntry) :
    handle_app_search keyword matched inputs = some l →
      (∃ idxs : List Nat, idxs.Nodup ∧ (∀ i ∈ idxs, i < matched.length) ∧
          l = idxs.map (fun i => matched.getD i {}) ∧
          (keyword ≠ "" → matched ≠ [] →
            selection_spec matched.length inputs [] = some idxs)) ∧
      (inputs.head? = some "0" → l = []) := by
  intro hl
  simp only [handle_app_search] at hl
  by_cases hk : keyword = ""
  · rw [if_pos hk] at hl
    obtain rfl := (Option.some.inj hl).symm
    exact ⟨⟨[], List.nodup_nil, by simp, by simp, fun hne _ => absurd hk hne⟩,
      fun _ => rfl⟩
  rw [if_neg hk] at hl
  by_cases hme : matched = []
  · rw [if_pos hme] at hl
    obtain rfl := (Option.some.inj hl).symm
    exact ⟨⟨[], List.nodup_nil, by simp, by simp, fun _ hne => absurd hme hne⟩,
      fun _ => rfl⟩
  rw [if_neg hme] at hl
  have heq := handle_app_search_loop_spec matched inputs []
  simp only [List.reverse_nil, List.map_nil, List.nil_append] at heq
  rw [heq] at hl
  cases hsp : selection_spec matched.length inputs [] with
  | none => rw [hsp] at hl; cases hl
  | some idxs =>
    rw [hsp] at hl
    have hlval := Option.some.inj hl
    obtain ⟨hnd, hbd, _⟩ := selection_spec_props matched.length inputs [] idxs hsp
    refine ⟨⟨idxs, hnd, hbd, hlval.symm, fun _ _ => rfl⟩, ?_⟩
    intro hhead
    cases inputs with
    | nil => cases hhead
    | cons c rest =>
      have hc : c = "0" := by simpa using hhead
      subst hc
      have hspec0 : selection_spec matched.length ("0" :: rest) [] = some [] := by
        simp only [selection_spec]
        by_cases hg : matched.length ≤ ([] : List Nat).length
        · rw [if_pos hg]
        · rw [if_neg hg]
          simp
      rw [hspec0] at hsp
      obtain rfl := (Option.some.inj hsp).symm
      simpa using hlval.symm

/-- Witness for C10: the input stream selects app 2, then tries the
out-of-range 9, then selects app 1; the selection order extracted from
the inputs is `[1, 0]` and the returned list is its image
`[entryB, entryA]`, in selection order. -/
theorem handle_app_search_nodup_selection_witness :
    handle_app_search "alpha" [entryA, entryB] ["2", "9", "1"]
        = some [entryB, entryA] ∧
      ∃ idxs : List Nat, idxs.Nodup ∧ (∀ i ∈ idxs, i < 2) ∧
        [entryB, entryA] = idxs.map (fun i => [entryA, entryB].getD i {}) ∧
        selection_spec 2 ["2", "9", "1"] [] = some idxs := by
  refine ⟨by decide, ?_⟩
  obtain ⟨idxs, h1, h2, h3, h4⟩ := (handle_app_search_nodup_selection "alpha"
    [entryA, entryB] ["2", "9", "1"] [entryB, entryA] (by decide)).1
  exact ⟨idxs, h1, by simpa using h2, h3, h4 (by decide) (by decide)⟩

/-- `runE` depends on the oracle only through the discarded status. -/
lemma runE_oracle (o1 o2 : Nat → Int) : runE o1 = runE o2 := rfl

/-- `adobe_phase` never reads an exit status. -/
lemma adobe_phase_oracle (o1 o2 : Nat → Int) : adobe_phase o1 = adobe_phase o2 := rfl

/-- `pkill_phase` never reads an exit status. -/
lemma pkill_phase_oracle (o1 o2 : Nat → Int) : pkill_phase o1 = pkill_phase o2 := rfl

/-- `backup_phase` never reads an exit status. -/
lemma backup_phase_oracle (o1 o2 : Nat → Int) : backup_phase o1 = backup_phase o2 := rfl

/-- `inject_phase` never reads an exit status. -/
lemma inject_phase_oracle (o1 o2 : Nat → Int) : inject_phase o1 = inject_phase o2 := rfl

/-- `sign_phase` never reads an exit status. -/
lemma sign_phase_oracle (o1 o2 : Nat → Int) : sign_phase o1 = sign_phase o2 := rfl

/-- `handle_helper` never reads an exit status. -/
lemma handle_helper_oracle (o1 o2 : Nat → Int) : handle_helper o1 = handle_helper o2 := rfl

/-- `helper_phase` never reads an exit status. -/
lemma helper_phase_oracle (o1 o2 : Nat → Int) : helper_phase o1 = helper_phase o2 := rfl

/-- `tcc_phase` never reads an exit status. -/
lemma tcc_phase_oracle (o1 o2 : Nat → Int) : tcc_phase o1 = tcc_phase o2 := rfl

/-- C3: the sequencer's control flow never inspects exit statuses.  For
any two exit-code oracles — two runs that differ only in the exit codes
the invoked external processes return — `process_app` produces the same
state: the same commands in the same order, the same crash/continue
flags.  No command failure is ever reported or branched on. -/
theorem process_app_oracle_independent (env : Env) (app : CatalogEntry)
    (local_app : InstalledApp) (app_base_locate : String)
    (bridge_file inject_file : Option String) (o1 o2 : Nat → Int) :
    process_app o1 env app local_app app_base_locate bridge_file inject_file
      = process_app o2 env app local_app app_base_locate bridge_file inject_file := by
  unfold process_app prep_phase
  rw [runE_oracle o1 o2, adobe_phase_oracle o1 o2, pkill_phase_oracle o1 o2,
    backup_phase_oracle o1 o2, inject_phase_oracle o1 o2, sign_phase_oracle o1 o2,
    helper_phase_oracle o1 o2, tcc_phase_oracle o1 o2]

/-- `runE` never changes the `dead` flag. -/
lemma runE_dead (o : Nat → Int) (e : Effect) (st : SeqState) :
    (runE o e st).dead = st.dead := by
  by_cases h : st.dead || st.done <;> simp [runE, h]

/-- `runE` never changes the `done` flag. -/
lemma runE_done (o : Nat → Int) (e : Effect) (st : SeqState) :
    (runE o e st).done = st.done := by
  by_cases h : st.dead || st.done <;> simp [runE, h]

/-- A live `runE` appends exactly its effect to the trace. -/
lemma runE_trace_eq (o : Nat → Int) (e : Effect) (st : SeqState)
    (h1 : st.dead = false) (h2 : st.done = false) :
    (runE o e st).trace = st.trace ++ [e] := by
  simp [runE, h1, h2]

/-- `crashE` never changes the trace. -/
lemma crashE_trace (st : SeqState) : (crashE st).trace = st.trace := by
  by_cases h : st.dead || st.done <;> simp [crashE, h]

/-- Folding `runE` over a command list from a live state appends exactly
that list to the trace. -/
lemma foldl_runE_trace_eq (o : Nat → Int) (es : List Effect) :
    ∀ st : SeqState, st.dead = false → st.done = false →
      (es.foldl (fun s e => runE o e s) st).trace = st.trace ++ es := by
  induction es with
  | nil => intro st _ _; simp
  | cons e rest ih =>
    intro st h1 h2
    rw [List.foldl_cons,
      ih (runE o e st) (by rw [runE_dead]; exact h1) (by rw [runE_done]; exact h2),
      runE_trace_eq o e st h1 h2]
    simp

/-- C6: backup handling before injection.  With a live sequencer state:
when a backup already exists and the user does not answer `n`, the
backup phase changes nothing (the old backup file is left untouched);
when the user answers `n`, the old backup is removed and replaced by a
fresh copy of the target; when no backup exists, one fresh copy of the
target is made.  Moreover every injection command the inject phase ever
issues reads from the backup path as its source. -/
theorem backup_reuse_or_create (o : Nat → Int) (env : Env) (app : CatalogEntry)
    (app_base_locate : String) (bridge_file : Option String)
    (dest backup : String) (s : SeqState)
    (hdead : s.dead = false) (hdone : s.done = false) :
    (env.pathExists backup = true → env.backupAnswer ≠ "n" →
        backup_phase o env dest backup s = s) ∧
      (env.pathExists backup = true → env.backupAnswer = "n" →
        backup_phase o env dest backup s
          = { s with
                trace := s.trace ++ [Effect.removeBackup backup, Effect.sudoCp dest backup]
                idx := s.idx + 1 }) ∧
      (env.pathExists backup = false →
        backup_phase o env dest backup s
          = { s with trace := s.trace ++ [Effect.sudoCp dest backup]
                     idx := s.idx + 1 }) ∧
      (∃ t, (inject_phase o env app app_base_locate bridge_file dest backup s).trace
            = s.trace ++ t ∧
          ∀ d src out, Effect.insertDylib d src out ∈ t → src = backup) := by
  refine ⟨?_, ?_, ?_, ?_⟩
  · intro hex hans
    simp [backup_phase, hex, hans]
  · intro hex hans
    simp [backup_phase, hex, hans, effE, runE, hdead, hdone]
  · intro hex
    simp [backup_phase, hex, runE, hdead, hdone]
  · simp only [inject_phase]
    by_cases hc : app.needCopyToAppDir
    · simp only [hc, if_true]
      cases hm : (match app.componentApp with
          | some l => if l.isEmpty then [] else l
          | none => ([] : List String)).mapM
            (fun i => env.mainExecutable (app_base_locate ++ i)) with
      | none =>
        refine ⟨[Effect.chmodInsertDylib (env.parent ++ "/tool/insert_dylib"),
          Effect.copyDylib
            (match env.isDevHome with
              | some p => p
              | none => env.parent ++ "/tool/91QiuChenly.dylib")
            (app_base_locate ++ pyStr bridge_file ++ "91QiuChenly.dylib")
            env.isDevHome.isSome], ?_, ?_⟩
        · rw [crashE_trace,
            runE_trace_eq o _ _ (by rw [runE_dead]; exact hdead)
              (by rw [runE_done]; exact hdone),
            runE_trace_eq o _ s hdead hdone]
          simp
        · intro d src out hmem
          simp at hmem
      | some exes =>
        refine ⟨[Effect.chmodInsertDylib (env.parent ++ "/tool/insert_dylib"),
          Effect.copyDylib
            (match env.isDevHome with
              | some p => p
              | none => env.parent ++ "/tool/91QiuChenly.dylib")
            (app_base_locate ++ pyStr bridge_file ++ "91QiuChenly.dylib")
            env.isDevHome.isSome] ++
          ((dest :: (((match app.componentApp with
                | some l => if l.isEmpty then [] else l
                | none => ([] : List String))).zip exes).map
              (fun p : String × String =>
                app_base_locate ++ p.1 ++ "/Contents/MacOS/" ++ p.2)).map
            (fun it => Effect.insertDylib
              (app_base_locate ++ pyStr bridge_file ++ "91QiuChenly.dylib") backup it)),
          ?_, ?_⟩
        · rw [foldl_runE_trace_eq o _ _
              (by rw [runE_dead, runE_dead]; exact hdead)
              (by rw [runE_done, runE_done]; exact hdone),
            runE_trace_eq o _ _ (by rw [runE_dead]; exact hdead)
              (by rw [runE_done]; exact hdone),
            runE_trace_eq o _ s hdead hdone]
          simp
        · intro d src out hmem
          rcases List.mem_append.mp hmem with hx | hx
          · simp at hx
          · rw [List.mem_map] at hx
            obtain ⟨it, _, heq⟩ := hx
            cases heq
            rfl
    · rw [if_neg hc]
      refine ⟨[Effect.chmodInsertDylib (env.parent ++ "/tool/insert_dylib"),
        Effect.insertDylib (env.parent ++ "/tool/91QiuChenly.dylib") backup dest], ?_, ?_⟩
      · rw [runE_trace_eq o _ _ (by rw [runE_dead]; exact hdead)
            (by rw [runE_done]; exact hdone),
          runE_trace_eq o _ s hdead hdone]
        simp
      · intro d src out hmem
        simp only [List.mem_cons, List.not_mem_nil, or_false] at hmem
        rcases hmem with hx | hx
        · cases hx
        · cases hx
          rfl

/-- Witness for C6: with an existing backup and answer `y`, the backup
phase leaves the state untouched, and the inject phase's trace extends
the empty trace only with injections reading from the backup path. -/
theorem backup_reuse_or_create_witness :
    backup_phase (fun _ => 0) envKeep "/Applications/X.app/Contents/MacOS/X"
        "/Applications/X.app/Contents/MacOS/X_backup" {} = {} ∧
      ∃ t, (inject_phase (fun _ => 0) envKeep {} "/Applications/X.app"
              (some "/Contents/MacOS/") "/Applications/X.app/Contents/MacOS/X"
              "/Applications/X.app/Contents/MacOS/X_backup" {}).trace
            = ([] : List Effect) ++ t ∧
          ∀ d src out, Effect.insertDylib d src out ∈ t →
            src = "/Applications/X.app/Contents/MacOS/X_backup" := by
  have h := backup_reuse_or_create (fun _ => 0) envKeep {} "/Applications/X.app"
    (some "/Contents/MacOS/") "/Applications/X.app/Contents/MacOS/X"
    "/Applications/X.app/Contents/MacOS/X_backup" {} rfl rfl
  exact ⟨h.1 (by decide) (by decide), h.2.2.2⟩

end InjectLib
